import Mathlib

/-!
Verification of the platform/configuration resolution and argument-assembly
logic of the OpenSSL 3.x.x package recipe
(`src/recipes/openssl/3.x.x/conanfile.py`).

The recipe's core logic is embedded shallowly:

* the glob-pattern Target Table (`_targets`) and the first-match scan of
  `_ancestor_target` become an ordered association list scanned with
  `List.find?` over an executable glob matcher modelling `fnmatch.fnmatch`
  (POSIX case-sensitive behaviour);
* the assembly of `Configure` arguments (`_get_configure_args`) becomes a
  pure function from an explicit configuration record to `List String`;
* the build-record persistence (`generate` writing `json.dumps` output and
  `_configure` reading it back with `json.loads`) is modelled byte-for-byte
  over codepoint lists, including the `ensure_ascii` escaping of
  `json.dumps` and the string scanner of `json.loads`.
-/

namespace OpenSSL

/-! ## Glob matching (model of Python `fnmatch.fnmatch` on POSIX)

`fnmatch.fnmatch(name, pattern)` translates the pattern to a regular
expression where `*` matches any run of characters (including `-`) and `?`
matches a single character, then matches the whole name.  Character classes
(`[...]`) are not used by any pattern in the recipe's Target Table and are
not modelled.  On POSIX hosts `os.path.normcase` is the identity, so
matching is case-sensitive.  The matcher is written with explicit fuel so
that it is structurally recursive and evaluates inside the kernel; the fuel
`pat.length + s.length + 1` is always sufficient because every recursive
call strictly decreases `pat.length + s.length`. -/

def globMatchAux : Nat → List Char → List Char → Bool
  | 0, _, _ => false
  | _ + 1, [], s => s.isEmpty
  | fuel + 1, c :: ps, s =>
    if c = '*' then
      globMatchAux fuel ps s ||
        (match s with
         | [] => false
         | _ :: xs => globMatchAux fuel (c :: ps) xs)
    else
      match s with
      | [] => false
      | x :: xs => (c = '?' || c = x) && globMatchAux fuel ps xs

/-- Glob test: does the glob `pattern` match the whole string
`name`?  (Same argument order as `fnmatch.fnmatch(query, i)` in the source.) -/
def fnmatchb (name pattern : String) : Bool :=
  globMatchAux (pattern.data.length + name.data.length + 1) pattern.data name.data

/-! ## The Target Table (`_targets`)

An ordered sequence of `(pattern, canonical-target)` pairs, transcribed in
the declaration order of the Python dict literal (Python dicts preserve
insertion order, and `_ancestor_target` iterates the dict in that order).
The three `Windows-*-gcc` rows depend on whether the `os.subsystem` setting
is `cygwin`, which is passed in as `isCygwin`. -/

def targetsTable (isCygwin : Bool) : List (String × String) :=
  [("Linux-x86-clang", "linux-x86-clang"),
   ("Linux-x86_64-clang", "linux-x86_64-clang"),
   ("Linux-x86-*", "linux-x86"),
   ("Linux-x86_64-*", "linux-x86_64"),
   ("Linux-armv4-*", "linux-armv4"),
   ("Linux-armv4i-*", "linux-armv4"),
   ("Linux-armv5el-*", "linux-armv4"),
   ("Linux-armv5hf-*", "linux-armv4"),
   ("Linux-armv6-*", "linux-armv4"),
   ("Linux-armv7-*", "linux-armv4"),
   ("Linux-armv7hf-*", "linux-armv4"),
   ("Linux-armv7s-*", "linux-armv4"),
   ("Linux-armv7k-*", "linux-armv4"),
   ("Linux-armv8-*", "linux-aarch64"),
   ("Linux-armv8.3-*", "linux-aarch64"),
   ("Linux-armv8-32-*", "linux-arm64ilp32"),
   ("Linux-mips-*", "linux-mips32"),
   ("Linux-mips64-*", "linux-mips64"),
   ("Linux-ppc32-*", "linux-ppc32"),
   ("Linux-ppc32le-*", "linux-pcc32"),
   ("Linux-ppc32be-*", "linux-ppc32"),
   ("Linux-ppc64-*", "linux-ppc64"),
   ("Linux-ppc64le-*", "linux-ppc64le"),
   ("Linux-pcc64be-*", "linux-pcc64"),
   ("Linux-s390x-*", "linux64-s390x"),
   ("Linux-e2k-*", "linux-generic64"),
   ("Linux-sparc-*", "linux-sparcv8"),
   ("Linux-sparcv9-*", "linux64-sparcv9"),
   ("Linux-*-*", "linux-generic32"),
   ("Macos-x86-*", "darwin-i386-cc"),
   ("Macos-x86_64-*", "darwin64-x86_64-cc"),
   ("Macos-ppc32-*", "darwin-ppc-cc"),
   ("Macos-ppc32be-*", "darwin-ppc-cc"),
   ("Macos-ppc64-*", "darwin64-ppc-cc"),
   ("Macos-ppc64be-*", "darwin64-ppc-cc"),
   ("Macos-armv8-*", "darwin64-arm64-cc"),
   ("Macos-*-*", "darwin-common"),
   ("iOS-x86_64-*", "darwin64-x86_64-cc"),
   ("iOS-*-*", "iphoneos-cross"),
   ("watchOS-*-*", "iphoneos-cross"),
   ("tvOS-*-*", "iphoneos-cross"),
   ("Android-armv7-*", "linux-generic32"),
   ("Android-armv7hf-*", "linux-generic32"),
   ("Android-armv8-*", "linux-generic64"),
   ("Android-x86-*", "linux-x86-clang"),
   ("Android-x86_64-*", "linux-x86_64-clang"),
   ("Android-mips-*", "linux-generic32"),
   ("Android-mips64-*", "linux-generic64"),
   ("Android-*-*", "linux-generic32"),
   ("Windows-x86-gcc", if isCygwin then "Cygwin-x86" else "mingw"),
   ("Windows-x86_64-gcc", if isCygwin then "Cygwin-x86_64" else "mingw64"),
   ("Windows-*-gcc", if isCygwin then "Cygwin-common" else "mingw-common"),
   ("Windows-ia64-Visual Studio", "VC-WIN64I"),
   ("Windows-x86-Visual Studio", "VC-WIN32"),
   ("Windows-x86_64-Visual Studio", "VC-WIN64A"),
   ("Windows-armv7-Visual Studio", "VC-WIN32-ARM"),
   ("Windows-armv8-Visual Studio", "VC-WIN64-ARM"),
   ("Windows-*-Visual Studio", "VC-noCE-common"),
   ("Windows-ia64-clang", "VC-WIN64I"),
   ("Windows-x86-clang", "VC-WIN32"),
   ("Windows-x86_64-clang", "VC-WIN64A"),
   ("Windows-armv7-clang", "VC-WIN32-ARM"),
   ("Windows-armv8-clang", "VC-WIN64-ARM"),
   ("Windows-*-clang", "VC-noCE-common"),
   ("WindowsStore-x86-*", "VC-WIN32-UWP"),
   ("WindowsStore-x86_64-*", "VC-WIN64A-UWP"),
   ("WindowsStore-armv7-*", "VC-WIN32-ARM-UWP"),
   ("WindowsStore-armv8-*", "VC-WIN64-ARM-UWP"),
   ("WindowsStore-*-*", "VC-WIN32-ONECORE"),
   ("WindowsCE-*-*", "VC-CE"),
   ("SunOS-x86-gcc", "solaris-x86-gcc"),
   ("SunOS-x86_64-gcc", "solaris64-x86_64-gcc"),
   ("SunOS-sparc-gcc", "solaris-sparcv8-gcc"),
   ("SunOS-sparcv9-gcc", "solaris64-sparcv9-gcc"),
   ("SunOS-x86-suncc", "solaris-x86-cc"),
   ("SunOS-x86_64-suncc", "solaris64-x86_64-cc"),
   ("SunOS-sparc-suncc", "solaris-sparcv8-cc"),
   ("SunOS-sparcv9-suncc", "solaris64-sparcv9-cc"),
   ("SunOS-*-*", "solaris-common"),
   ("*BSD-x86-*", "BSD-x86"),
   ("*BSD-x86_64-*", "BSD-x86_64"),
   ("*BSD-ia64-*", "BSD-ia64"),
   ("*BSD-sparc-*", "BSD-sparcv8"),
   ("*BSD-sparcv9-*", "BSD-sparcv9"),
   ("*BSD-armv8-*", "BSD-generic64"),
   ("*BSD-mips64-*", "BSD-generic64"),
   ("*BSD-ppc64-*", "BSD-generic64"),
   ("*BSD-ppc64le-*", "BSD-generic64"),
   ("*BSD-ppc64be-*", "BSD-generic64"),
   ("AIX-ppc32-gcc", "aix-gcc"),
   ("AIX-ppc64-gcc", "aix64-gcc"),
   ("AIX-pcc32-*", "aix-cc"),
   ("AIX-ppc64-*", "aix64-cc"),
   ("AIX-*-*", "aix-common"),
   ("*BSD-*-*", "BSD-generic32"),
   ("Emscripten-*-*", "cc"),
   ("Neutrino-*-*", "BASE_unix")]

/-! ## Target resolution (`_ancestor_target`) -/

/-- Model of `compiler = "Visual Studio" if self.settings.compiler == "msvc" else
self.settings.compiler`. -/
def normalizeCompiler (compiler : String) : String :=
  if compiler = "msvc" then "Visual Studio" else compiler

/-- The query string `f"{self.settings.os}-{self.settings.arch}-{compiler}"`. -/
def queryString (os arch compiler : String) : String :=
  os ++ "-" ++ (arch ++ "-" ++ normalizeCompiler compiler)

/-- The `ConanInvalidConfiguration` raised by `_ancestor_target`; its message
embeds the full `(os, arch, compiler)` triple (the compiler as written in the
settings, before normalization). -/
structure ConfigError where
  os : String
  arch : String
  compiler : String
deriving DecidableEq, Repr

/-- Model of `_ancestor_target`.  `override` is the value of
`self.conf.get("user.openssl.configuration")` (`some` when the conf entry is
set to a non-empty, hence truthy, string): when present it is returned
verbatim with no table lookup.  Otherwise the Target Table is scanned in
declaration order and the first glob-matching row wins; if no row matches, a
`ConanInvalidConfiguration` carrying the triple is raised. -/
def ancestorTarget (override : Option String) (os arch compiler : String)
    (isCygwin : Bool) : Except ConfigError String :=
  match override with
  | some conf => .ok conf
  | none =>
    match (targetsTable isCygwin).find?
        (fun p => fnmatchb (queryString os arch compiler) p.1) with
    | some p => .ok p.2
    | none => .error ⟨os, arch, compiler⟩

/-! ## Code-generation ancestor (`_asm_target` and `_create_targets`)

`_asm_target` builds a dict whose keys are *architecture* names (the `x86`
and `x86_64` entries additionally depend on the OS), but then looks it up
with `.get(str(self.settings.os), None)` — i.e. with the *OS* name.  The
embedding reproduces this lookup key verbatim. -/

def asmDict (os : String) : List (String × Option String) :=
  [("x86", if os = "Android" then some "x86_asm" else none),
   ("x86_64", if os = "Android" then some "x86_64_asm" else none),
   ("armv5el", some "armv4_asm"),
   ("armv5hf", some "armv4_asm"),
   ("armv6", some "armv4_asm"),
   ("armv7", some "armv4_asm"),
   ("armv7hf", some "armv4_asm"),
   ("armv7s", some "armv4_asm"),
   ("armv7k", some "armv4_asm"),
   ("armv8", some "aarch64_asm"),
   ("armv8_32", some "aarch64_asm"),
   ("armv8.3", some "aarch64_asm"),
   ("mips", some "mips32_asm"),
   ("mips64", some "mips64_asm"),
   ("sparc", some "sparcv8_asm"),
   ("sparcv9", some "sparcv9_asm"),
   ("ia64", some "ia64_asm"),
   ("ppc32be", some "ppc32_asm"),
   ("ppc32", some "ppc32_asm"),
   ("ppc64le", some "ppc64_asm"),
   ("ppc64", some "ppc64_asm"),
   ("s390", some "s390x_asm"),
   ("s390x", some "s390x_asm")]

/-- Model of the `_asm_target` property.  The `arch` parameter is deliberately
unused: the source performs `{...}.get(str(self.settings.os), None)`, keying
the lookup by the OS name, so the architecture never participates.  A `.get`
miss and a stored `None` value are indistinguishable, hence the
`(· .getD none)` flattening. -/
def asmTarget (os : String) (arch : String) : Option String :=
  let _ := arch
  if os ∈ ["Android", "iOS", "watchOS", "tvOS"] then
    ((asmDict os).lookup os).getD none
  else none

/-- The `inherit_from` ancestor chain written by `_create_targets`:
`[ "<ancestor>", asm("<asm_target>") ]` when `_asm_target` is truthy, else
`[ "<ancestor>" ]`.  Modelled as the list of canonical identifiers declared
in the chain. -/
def ancestorChain (base os arch : String) : List String :=
  match asmTarget os arch with
  | some a => [base, a]
  | none => [base]

/-! ## Argument assembly (`_get_configure_args`)

All inputs read by `_get_configure_args` (and the helper properties it
calls) are gathered in `Config`.  `unixPath` stands for the external
`conan.tools.microsoft.unix_path` helper, applied only under `win_bash`;
`zlib` stands for `self.dependencies["zlib"]` metadata, read only when the
`no_zlib` option is false (the dependency is guaranteed present then,
because `requirements` added it). -/

structure ZlibInfo where
  includeDir : String
  libDir : String
  libName : String
  shared : Bool

structure Config where
  os : String
  arch : String
  compiler : String
  compilerVersion : String
  buildType : String
  /-- The value of `str(self.settings.os.api_level)`, read only when `os = "Android"`. -/
  apiLevel : String
  /-- The value of `self.settings_build.os`. -/
  settingsBuildOs : String
  winBash : Bool
  unixPath : String → String
  packageFolder : Option String
  buildFolder : String
  zlib : ZlibInfo
  /-- The stored boolean options of `self.options` (a name → value mapping
  with distinct names), after the `config_options`/`configure` deletions.
  Iterating the options with `items()` yields them **sorted by option
  name** — Conan's options model reads `fields = sorted(self._data.keys())`
  — which `loopArgs` applies via `sortByName`. -/
  opts : List (String × Bool)
  /-- The string-valued `openssldir` option (`None` when unset); it is in the
  generic loop's exclusion set by name, so keeping it out of `opts` is
  observationally equivalent. -/
  openssldir : Option String

/-- Model of `self.options.get_safe(name, dflt)`: the option's value when present,
the default otherwise. -/
def getSafe (opts : List (String × Bool)) (name : String) (dflt : Bool) : Bool :=
  (opts.lookup name).getD dflt

/-- Model of `self.settings.compiler == "clang" and self.settings.os == "Windows"`. -/
def isClangCl (c : Config) : Bool :=
  c.compiler = "clang" && c.os = "Windows"

/-- Model of `self._is_clangcl or is_msvc(self)`; the external `is_msvc` helper tests
`settings.compiler == "msvc"`. -/
def useNmake (c : Config) : Bool :=
  isClangCl c || c.compiler = "msvc"

/-- Model of `self.settings.os == "Windows" and self.settings.compiler == "gcc"`. -/
def isMingw (c : Config) : Bool :=
  c.os = "Windows" && c.compiler = "gcc"

/-- The `_target` property: `conan-{build_type}-{os}-{arch}-{compiler}-{version}`
with a `VC-` prepend for nmake builds and a `mingw-` prepend for MinGW. -/
def targetName (c : Config) : String :=
  let t := "conan-" ++ (c.buildType ++ ("-" ++ (c.os ++ ("-" ++ (c.arch ++
    ("-" ++ (c.compiler ++ ("-" ++ c.compilerVersion))))))))
  let t := if useNmake c then "VC-" ++ t else t
  if isMingw c then "mingw-" ++ t else t

/-- Model of `option_name.replace("_", "-")` (single-character replace = charwise map). -/
def hyphenate (s : String) : String :=
  ⟨s.data.map (fun ch => if ch = '_' then '-' else ch)⟩

/-- Model of `path.replace("\\", "/")` for the zlib paths on a Windows build host. -/
def backslashToSlash (s : String) : String :=
  ⟨s.data.map (fun ch => if ch = '\\' then '/' else ch)⟩

/-- The tuple of option names excluded from the generic feature-disable
loop: `("shared", "fPIC", "openssldir", "capieng_dialog", "enable_capieng",
"zlib", "no_fips")`.  Note the literal `"zlib"`: the recipe declares no
option of that name (the option is `no_zlib`). -/
def exclusionNames : List String :=
  ["shared", "fPIC", "openssldir", "capieng_dialog", "enable_capieng",
   "zlib", "no_fips"]

/-- Lexicographic codepoint comparison of character lists — the order
Python's `sorted` applies to strings (a string compares below its proper
extensions, otherwise by the first differing code point). -/
def charsLe : List Char → List Char → Bool
  | [], _ => true
  | _ :: _, [] => false
  | a :: as, b :: bs =>
    if a < b then true
    else if b < a then false
    else charsLe as bs

/-- Lexicographic comparison of option names. -/
def nameLe (a b : String) : Bool :=
  charsLe a.data b.data

/-- Insertion of an option into a name-sorted option list. -/
def insertByName (p : String × Bool) : List (String × Bool) → List (String × Bool)
  | [] => [p]
  | q :: qs => if nameLe p.1 q.1 then p :: q :: qs else q :: insertByName p qs

/-- The sequence `self.options.items()` yields: the stored options **sorted
by option name** (Conan's options model iterates
`fields = sorted(self._data.keys())`, not the insertion order).  Insertion
sort is used here; for the distinct names of an options object the
name-sorted sequence is unique, so the sorting algorithm is immaterial. -/
def sortByName : List (String × Bool) → List (String × Bool)
  | [] => []
  | p :: ps => insertByName p (sortByName ps)

/-- The generic feature-disable loop:
`for option_name, value in self.options.items()` iterates the options
sorted by name (see `sortByName`); for each yielded option whose value is
truthy and whose name is not excluded, emit the hyphenated option name.
(`self.options.get_safe(option_name, False)` during iteration of the same
options object equals the yielded value.) -/
def loopArgs (opts : List (String × Bool)) : List String :=
  (sortByName opts).filterMap fun p =>
    if p.2 ∧ p.1 ∉ exclusionNames then some (hyphenate p.1) else none

/-- Model of `_get_default_openssl_dir`: `/etc/ssl` on Linux, else
`os.path.join(self.package_folder or ".", "res")` (POSIX separator). -/
def getDefaultOpensslDir (c : Config) : String :=
  if c.os = "Linux" then "/etc/ssl"
  else (c.packageFolder.getD ".") ++ "/res"

/-- The zlib block of `_get_configure_args` (executed when `no_zlib` is
false): shared/static classifier plus explicit include and library path
arguments, with backslashes rewritten on a Windows build host. -/
def zlibArgs (c : Config) : List String :=
  let includePath := c.zlib.includeDir
  let libPath := if c.os = "Windows"
    then c.zlib.libDir ++ ("/" ++ (c.zlib.libName ++ ".lib"))
    else c.zlib.libDir
  let includePath := if c.settingsBuildOs = "Windows"
    then backslashToSlash includePath else includePath
  let libPath := if c.settingsBuildOs = "Windows"
    then backslashToSlash libPath else libPath
  [if c.zlib.shared then "zlib-dynamic" else "zlib",
   "--with-zlib-include=\"" ++ (includePath ++ "\""),
   "--with-zlib-lib=\"" ++ (libPath ++ "\"")]

/-- Everything `_get_configure_args` appends before the generic
feature-disable loop, in the source's append order. -/
def baseArgs (c : Config) (perl : String) : List String :=
  let openssldirRaw := c.openssldir.getD (getDefaultOpensslDir c)
  let destFolder := c.packageFolder.getD c.buildFolder
  let pfx := if c.winBash then c.unixPath destFolder else destFolder
  let openssldir := if c.winBash then c.unixPath openssldirRaw else openssldirRaw
  ["\"" ++ (targetName c ++ "\""),
   if getSafe c.opts "shared" false then "shared" else "no-shared",
   "--prefix=\"" ++ (pfx ++ "\""),
   "--libdir=lib",
   "--openssldir=\"" ++ (openssldir ++ "\""),
   "no-unit-test",
   if getSafe c.opts "no_threads" false then "no-threads" else "threads",
   "PERL=" ++ perl,
   "no-tests",
   if c.buildType = "Debug" then "--debug" else "--release"]
  ++ (if c.os = "Android" then [" -D__ANDROID_API__=" ++ c.apiLevel] else [])
  ++ (if c.os = "Emscripten" then ["-D__STDC_NO_ATOMICS__=1"] else [])
  ++ (if c.os = "Windows" then
        (if getSafe c.opts "enable_capieng" false then ["enable-capieng"] else [])
        ++ (if getSafe c.opts "capieng_dialog" false
            then ["-DOPENSSL_CAPIENG_DIALOG=1"] else [])
      else
        [if getSafe c.opts "fPIC" true then "-fPIC" else "no-pic"])
  ++ [if getSafe c.opts "no_fips" true then "no-fips" else "enable-fips"]
  ++ (if c.os = "Neutrino" then ["no-asm -lsocket -latomic"] else [])
  ++ (if getSafe c.opts "no_zlib" false then [] else zlibArgs c)

/-- Model of `_get_configure_args`: the base append sequence followed by the
generic feature-disable loop. -/
def getConfigureArgs (c : Config) (perl : String) : List String :=
  baseArgs c perl ++ loopArgs c.opts

/-- The boolean option names declared by the recipe's `options` dict (all
keys except the string-valued `openssldir`), in declaration order. -/
def booleanOptionNames : List String :=
  ["shared", "fPIC", "enable_weak_ssl_ciphers", "386", "capieng_dialog",
   "enable_capieng", "no_aria", "no_asm", "no_async", "no_blake2", "no_bf",
   "no_camellia", "no_chacha", "no_cms", "no_comp", "no_ct", "no_cast",
   "no_deprecated", "no_des", "no_dgram", "no_dh", "no_dsa", "no_dso",
   "no_ec", "no_ecdh", "no_ecdsa", "no_engine", "no_filenames", "no_fips",
   "no_gost", "no_idea", "no_legacy", "no_md2", "no_md4", "no_mdc2",
   "no_ocsp", "no_pinshared", "no_rc2", "no_rc4", "no_rc5", "no_rfc3779",
   "no_rmd160", "no_sm2", "no_sm3", "no_sm4", "no_srp", "no_srtp",
   "no_sse2", "no_ssl", "no_stdio", "no_seed", "no_sock", "no_ssl3",
   "no_threads", "no_tls1", "no_ts", "no_whirlpool", "no_zlib"]

/-! ## The persisted build record (`generate` / `_configure`)

`generate` writes `json.dumps({"configure_args": configure_args,
"perl_exe": perl})` to `openssl_build.json`; `_configure` reads it back with
`json.loads`.  Both sides are modelled byte-for-byte over lists of Unicode
codepoints (`List Nat`): `serBuildData` reproduces the exact output of
`json.dumps` with its defaults (`ensure_ascii=True`, item separator `", "`,
key separator `": "`), including `\uXXXX` escapes and surrogate pairs for
astral characters; `parseBuildData` models the `json.loads` string scanner
(strict mode) restricted to the object shape `json.dumps` produces for this
record.  Record strings are sequences of Unicode scalar values (codepoints
below `0x110000` and outside the surrogate range), which is what Python
strings produced by this recipe contain. -/

/-- A Unicode scalar value: the well-formedness of every codepoint stored in
a build record. -/
def scalarCp (c : Nat) : Bool :=
  c < 1114112 && !(55296 ≤ c && c ≤ 57343)

/-- The persisted record: `{"configure_args": [...], "perl_exe": ...}`. -/
structure BuildData where
  configureArgs : List (List Nat)
  perlExe : List Nat
deriving DecidableEq, Repr

def wfStr (s : List Nat) : Bool :=
  s.all scalarCp

def wfBuildData (d : BuildData) : Bool :=
  d.configureArgs.all wfStr && wfStr d.perlExe

/-- Lower-case hex digit of a nibble, as a codepoint. -/
def toHexDigit (n : Nat) : Nat :=
  if n < 10 then 48 + n else 87 + n

/-- The four hex digits of `%04x`. -/
def hex4 (n : Nat) : List Nat :=
  [toHexDigit (n / 4096 % 16), toHexDigit (n / 256 % 16),
   toHexDigit (n / 16 % 16), toHexDigit (n % 16)]

/-- The `json.dumps` escaping of one character (`py_encode_basestring_ascii`):
`"` and `\` get two-character escapes, the five control characters with
short escapes use them, other characters outside printable ASCII are
`\uXXXX`-escaped, astral characters become a UTF-16 surrogate pair of
escapes. -/
def escapeChar (c : Nat) : List Nat :=
  if c = 34 then [92, 34]
  else if c = 92 then [92, 92]
  else if c = 8 then [92, 98]
  else if c = 9 then [92, 116]
  else if c = 10 then [92, 110]
  else if c = 12 then [92, 102]
  else if c = 13 then [92, 114]
  else if 32 ≤ c && c ≤ 126 then [c]
  else if c < 65536 then 92 :: 117 :: hex4 c
  else (92 :: 117 :: hex4 (55296 + (c - 65536) / 1024))
       ++ (92 :: 117 :: hex4 (56320 + (c - 65536) % 1024))

def escapeString : List Nat → List Nat
  | [] => []
  | c :: cs => escapeChar c ++ escapeString cs

/-- A serialized JSON string: opening quote, escaped body, closing quote. -/
def serStr (s : List Nat) : List Nat :=
  34 :: (escapeString s ++ [34])

/-- The comma-space-separated items of a JSON array (`json.dumps` default
item separator `", "`). -/
def serItems : List (List Nat) → List Nat
  | [] => []
  | [s] => serStr s
  | s :: r :: rs => serStr s ++ ([44, 32] ++ serItems (r :: rs))

def serList (l : List (List Nat)) : List Nat :=
  91 :: (serItems l ++ [93])

/-- Codepoints of a Lean string literal, used for the fixed JSON tokens. -/
def lit (s : String) : List Nat :=
  s.data.map Char.toNat

/-- Byte-for-byte model of `json.dumps({"configure_args": args, "perl_exe": perl})`
(the dict preserves insertion order, so `configure_args` is serialized
first). -/
def serBuildData (d : BuildData) : List Nat :=
  lit "\x7b\"configure_args\": " ++ (serList d.configureArgs
    ++ (lit ", \"perl_exe\": " ++ (serStr d.perlExe ++ [125])))

def parseHexDigit (c : Nat) : Option Nat :=
  if 48 ≤ c ∧ c ≤ 57 then some (c - 48)
  else if 97 ≤ c ∧ c ≤ 102 then some (c - 87)
  else if 65 ≤ c ∧ c ≤ 70 then some (c - 55)
  else none

def parseHex4 : List Nat → Option (Nat × List Nat)
  | a :: b :: c :: d :: rest => do
    let xa ← parseHexDigit a
    let xb ← parseHexDigit b
    let xc ← parseHexDigit c
    let xd ← parseHexDigit d
    some (xa * 4096 + xb * 256 + xc * 16 + xd, rest)
  | _ => none

/-- The single-character escapes accepted by `json.loads` (`BACKSLASH` map
of `py_scanstring`). -/
def simpleUnescape (e : Nat) : Option Nat :=
  if e = 34 then some 34
  else if e = 92 then some 92
  else if e = 47 then some 47
  else if e = 98 then some 8
  else if e = 102 then some 12
  else if e = 110 then some 10
  else if e = 114 then some 13
  else if e = 116 then some 9
  else none

/-- Decode one `\uXXXX` escape (the input starts right after the `\u`),
combining a high-surrogate escape immediately followed by a low-surrogate
escape into one astral codepoint, exactly as `py_scanstring` does; an
unpaired surrogate escape stays as it is, scanning resuming right after the
first escape. -/
def parseUEsc (cs2 : List Nat) : Option (Nat × List Nat) :=
  match parseHex4 cs2 with
  | none => none
  | some (n, cs3) =>
    if 55296 ≤ n ∧ n ≤ 56319 then
      match cs3 with
      | 92 :: 117 :: cs4 =>
        match parseHex4 cs4 with
        | none => none
        | some (m, cs5) =>
          if 56320 ≤ m ∧ m ≤ 57343 then
            some (65536 + (n - 55296) * 1024 + (m - 56320), cs5)
          else some (n, 92 :: 117 :: cs4)
      | _ => some (n, cs3)
    else some (n, cs3)

/-- The `json.loads` string scanner (strict mode), after the opening quote:
returns the decoded codepoints and the unconsumed input.  A `\uXXXX` escape
in the high-surrogate range followed by a `\uXXXX` escape in the
low-surrogate range is combined into one astral codepoint, exactly as
`py_scanstring` does; raw control characters are rejected.  `fuel` bounds
the number of decoded characters; every step consumes at least one input
codepoint, so `input.length + 1` is always sufficient. -/
def scanStrBody : Nat → List Nat → Option (List Nat × List Nat)
  | 0, _ => none
  | _ + 1, [] => none
  | fuel + 1, c :: cs =>
    if c = 34 then some ([], cs)
    else if c = 92 then
      match cs with
      | [] => none
      | e :: cs2 =>
        if e = 117 then
          match parseUEsc cs2 with
          | none => none
          | some (d, cs3) => (scanStrBody fuel cs3).map (fun r => (d :: r.1, r.2))
        else
          match simpleUnescape e with
          | none => none
          | some d => (scanStrBody fuel cs2).map (fun r => (d :: r.1, r.2))
    else if c < 32 then none
    else (scanStrBody fuel cs).map (fun r => (c :: r.1, r.2))

/-- Parse one JSON string, opening quote included. -/
def parseStr0 (input : List Nat) : Option (List Nat × List Nat) :=
  match input with
  | 34 :: cs => scanStrBody (cs.length + 1) cs
  | _ => none

/-- Parse the remaining items of a non-empty string array: a string, then
either `]` or `, ` and further items.  `fuel` bounds the item count. -/
def parseItems : Nat → List Nat → Option (List (List Nat) × List Nat)
  | 0, _ => none
  | fuel + 1, input =>
    match parseStr0 input with
    | none => none
    | some (s, rest) =>
      match rest with
      | 93 :: rest2 => some ([s], rest2)
      | 44 :: 32 :: rest2 =>
        match parseItems fuel rest2 with
        | none => none
        | some (ss, rest3) => some (s :: ss, rest3)
      | _ => none

/-- Parse a JSON array of strings in the canonical `json.dumps` layout. -/
def parseArr (input : List Nat) : Option (List (List Nat) × List Nat) :=
  match input with
  | 91 :: 93 :: rest => some ([], rest)
  | 91 :: rest => parseItems (rest.length + 1) rest
  | _ => none

/-- Expect the exact token `t` as a heading of the input. -/
def expectTok : List Nat → List Nat → Option (List Nat)
  | [], input => some input
  | t :: ts, c :: cs => if c = t then expectTok ts cs else none
  | _ :: _, [] => none

/-- Model of `json.loads` on the build-record file, restricted to the object shape
that `json.dumps` emits for it in `generate` (`json.loads` additionally
tolerates whitespace variations that `json.dumps` never produces).  The
whole input must be consumed. -/
def parseBuildData (input : List Nat) : Option BuildData :=
  match expectTok (lit "\x7b\"configure_args\": ") input with
  | none => none
  | some r1 =>
    match parseArr r1 with
    | none => none
    | some (args, r2) =>
      match expectTok (lit ", \"perl_exe\": ") r2 with
      | none => none
      | some r3 =>
        match parseStr0 r3 with
        | none => none
        | some (perl, r4) =>
          match r4 with
          | [125] => some ⟨args, perl⟩
          | _ => none

/-! ## Concrete instances used by the claim theorems -/

/-- The position-independent-code arguments of step 5 of the assembly. -/
def picArgPred (a : String) : Bool :=
  a == "-fPIC" || a == "no-pic"

/-- Containment test: does `needle` occur as a contiguous
subsequence of `hay`? -/
def containsSeq (needle : List Char) : List Char → Bool
  | [] => needle.isEmpty
  | c :: rest => needle.isPrefixOf (c :: rest) || containsSeq needle rest

/-- An argument mentioning zlib anywhere in its text. -/
def zlibRelated (a : String) : Bool :=
  containsSeq "zlib".data a.data

/-- A fixed Linux build environment shared by the concrete-instance
theorems; the option list is overridden per instance. -/
def sampleCfg : Config :=
  { os := "Linux", arch := "x86_64", compiler := "clang", compilerVersion := "13",
    buildType := "Release", apiLevel := "", settingsBuildOs := "Linux",
    winBash := false, unixPath := fun s => s, packageFolder := some "/pkg",
    buildFolder := "/bld", zlib := ⟨"/zlib/include", "/zlib/lib", "z", false⟩,
    opts := [], openssldir := none }

/-- The Option Set of the spec's concrete Linux/x86_64/clang scenario, as it
exists when `generate` runs: `config_options` deleted the two capieng
options (OS is not Windows), `configure` kept `fPIC` (shared is false), and
all boolean options hold their default `False` except `fPIC = True` (its
declared default) and `no_zlib = True` (the scenario's setting). -/
def c3Opts : List (String × Bool) :=
  (booleanOptionNames.filter
      (fun n => n ∉ (["capieng_dialog", "enable_capieng"] : List String))).map
    (fun n => (n, n == "fPIC" || n == "no_zlib"))

/-- The argument list assembled for the spec's concrete scenario. -/
def c3Args : List String :=
  getConfigureArgs { sampleCfg with opts := c3Opts } "perl"

/-- Two option lists holding exactly the same (name, value) pairs in
different insertion orders. -/
def c8OptsA : List (String × Bool) := [("no_md2", true), ("no_md4", true)]

def c8OptsB : List (String × Bool) := [("no_md4", true), ("no_md2", true)]

/-- A sample build record exercising every escaping regime of the
serializer: printable ASCII, quote, backslash, a control character, a
non-ASCII BMP character and an astral character. -/
def c7Sample : BuildData :=
  ⟨[[110, 111, 45, 115, 104, 97, 114, 101, 100], [34, 92, 8, 955, 120000]],
   [112, 101, 114, 108]⟩

/-! ## General helper lemmas -/

theorem data_app (a b : String) : (a ++ b).data = a.data ++ b.data := by
  cases a; cases b; rfl

theorem ne_of_take (n : Nat) {s t : String} (h : s.data.take n ≠ t.data.take n) :
    s ≠ t :=
  fun e => h (by rw [e])

theorem take_append_left (a b : String) (n : Nat) (h : n ≤ a.data.length) :
    ((a ++ b).data).take n = a.data.take n := by
  rw [data_app, List.take_append_of_le_length h]

/-- Two strings differ when the first is a concatenation whose literal head
already differs from the other string on the first `n` characters. -/
theorem beq_lead_false (n : Nat) (a b t : String) (h1 : n ≤ a.data.length)
    (h2 : a.data.take n ≠ t.data.take n) : ((a ++ b) == t) = false := by
  rw [beq_eq_false_iff_ne]
  exact ne_of_take n (by rw [take_append_left a b n h1]; exact h2)

theorem picArgPred_append (a b : String) (n1 n2 : Nat)
    (h1 : n1 ≤ a.data.length) (h2 : a.data.take n1 ≠ "-fPIC".data.take n1)
    (h3 : n2 ≤ a.data.length) (h4 : a.data.take n2 ≠ "no-pic".data.take n2) :
    picArgPred (a ++ b) = false := by
  simp only [picArgPred, Bool.or_eq_false_iff]
  exact ⟨beq_lead_false n1 _ _ _ h1 h2, beq_lead_false n2 _ _ _ h3 h4⟩

/-- First-match semantics of `List.find?`: if position `i` satisfies the
predicate and no earlier position does, `find?` returns exactly the element
at `i`. -/
theorem find?_eq_of_first {α : Type} (p : α → Bool) (l : List α) :
    ∀ (i : Nat) (h : i < l.length), p (l.get ⟨i, h⟩) = true →
      (∀ j (hj : j < i), p (l.get ⟨j, Nat.lt_trans hj h⟩) = false) →
      l.find? p = some (l.get ⟨i, h⟩) := by
  induction l with
  | nil => intro i h; simp at h
  | cons a t ih =>
    intro i h hp hprev
    cases i with
    | zero =>
      have hp0 : p a = true := hp
      rw [List.find?_cons_of_pos _ hp0]
      rfl
    | succ i =>
      have ha : p a = false := by simpa using hprev 0 (Nat.succ_pos i)
      rw [List.find?_cons_of_neg _ (by simp [ha])]
      have h' : i < t.length := Nat.lt_of_succ_lt_succ h
      exact ih i h' (by simpa using hp)
        (fun j hj => by simpa using hprev (j + 1) (Nat.succ_lt_succ hj))

theorem lookup_mem {l : List (String × Bool)} {n : String} {v : Bool}
    (h : l.lookup n = some v) : (n, v) ∈ l := by
  induction l with
  | nil => simp [List.lookup] at h
  | cons q qs ih =>
    obtain ⟨k, w⟩ := q
    simp only [List.lookup] at h
    by_cases hk : n = k
    · subst hk
      simp only [beq_self_eq_true] at h
      simp only [Option.some.injEq] at h
      subst h
      exact List.mem_cons_self _ _
    · have hb : (n == k) = false := beq_eq_false_iff_ne.mpr hk
      rw [hb] at h
      exact List.mem_cons_of_mem _ (ih h)

theorem lookup_none_iff {l : List (String × Bool)} {n : String} :
    l.lookup n = none ↔ n ∉ l.map Prod.fst := by
  induction l with
  | nil => simp [List.lookup]
  | cons q qs ih =>
    obtain ⟨k, w⟩ := q
    simp only [List.lookup, List.map_cons, List.mem_cons]
    by_cases hk : n = k
    · subst hk
      simp
    · have hb : (n == k) = false := beq_eq_false_iff_ne.mpr hk
      rw [hb]
      simp [hk, ih]

theorem lookup_of_mem_nodup {l : List (String × Bool)} {n : String} {v : Bool}
    (hnd : (l.map Prod.fst).Nodup) (h : (n, v) ∈ l) : l.lookup n = some v := by
  induction l with
  | nil => simp at h
  | cons q qs ih =>
    obtain ⟨k, w⟩ := q
    simp only [List.map_cons, List.nodup_cons] at hnd
    rcases List.mem_cons.mp h with heq | hmem
    · injection heq with h1 h2
      subst h1
      subst h2
      simp [List.lookup]
    · have hk : n ≠ k := by
        rintro rfl
        exact hnd.1 (List.mem_map.mpr ⟨(n, v), hmem, rfl⟩)
      have hb : (n == k) = false := beq_eq_false_iff_ne.mpr hk
      simp only [List.lookup, hb]
      exact ih hnd.2 hmem

/-- The function `List.lookup` is insensitive to permutation when the keys are distinct. -/
theorem lookup_perm {l1 l2 : List (String × Bool)} (hp : l1.Perm l2)
    (hnd : (l1.map Prod.fst).Nodup) (n : String) : l1.lookup n = l2.lookup n := by
  cases h : l1.lookup n with
  | none =>
    have hn := lookup_none_iff.mp h
    have : n ∉ l2.map Prod.fst := fun hc => hn ((hp.map Prod.fst).mem_iff.mpr hc)
    exact (lookup_none_iff.mpr this).symm
  | some v =>
    have hm : (n, v) ∈ l2 := hp.mem_iff.mp (lookup_mem h)
    have hnd2 : (l2.map Prod.fst).Nodup := (hp.map Prod.fst).nodup_iff.mp hnd
    exact (lookup_of_mem_nodup hnd2 hm).symm

/-! ## Lemmas about the name-sorted option iteration -/

theorem charsLe_total : ∀ (x y : List Char), charsLe x y = true ∨ charsLe y x = true := by
  intro x
  induction x with
  | nil => intro y; left; rfl
  | cons a as ih =>
    intro y
    cases y with
    | nil => right; rfl
    | cons b bs =>
      rcases lt_trichotomy a b with h | h | h
      · left
        simp [charsLe, h]
      · subst h
        rcases ih bs with h2 | h2
        · left
          simp [charsLe, lt_irrefl a, h2]
        · right
          simp [charsLe, lt_irrefl a, h2]
      · right
        simp [charsLe, h]

theorem charsLe_antisymm : ∀ (x y : List Char),
    charsLe x y = true → charsLe y x = true → x = y := by
  intro x
  induction x with
  | nil =>
    intro y hxy hyx
    cases y with
    | nil => rfl
    | cons b bs => simp [charsLe] at hyx
  | cons a as ih =>
    intro y hxy hyx
    cases y with
    | nil => simp [charsLe] at hxy
    | cons b bs =>
      rcases lt_trichotomy a b with h | h | h
      · simp [charsLe, lt_asymm h, h] at hyx
      · subst h
        rw [ih bs (by simpa [charsLe, lt_irrefl a] using hxy)
          (by simpa [charsLe, lt_irrefl a] using hyx)]
      · simp [charsLe, lt_asymm h, h] at hxy

theorem charsLe_trans : ∀ (x y z : List Char),
    charsLe x y = true → charsLe y z = true → charsLe x z = true := by
  intro x
  induction x with
  | nil => intro y z _ _; rfl
  | cons a as ih =>
    intro y z hxy hyz
    cases y with
    | nil => simp [charsLe] at hxy
    | cons b bs =>
      cases z with
      | nil => simp [charsLe] at hyz
      | cons c cs =>
        rcases lt_trichotomy a b with hab | hab | hab
        · rcases lt_trichotomy b c with hbc | hbc | hbc
          · simp [charsLe, lt_trans hab hbc]
          · subst hbc
            simp [charsLe, hab]
          · simp [charsLe, lt_asymm hbc, hbc] at hyz
        · subst hab
          rcases lt_trichotomy a c with hac | hac | hac
          · simp [charsLe, hac]
          · subst hac
            have h1 : charsLe as bs = true := by
              simpa [charsLe, lt_irrefl a] using hxy
            have h2 : charsLe bs cs = true := by
              simpa [charsLe, lt_irrefl a] using hyz
            simp [charsLe, lt_irrefl a, ih bs cs h1 h2]
          · simp [charsLe, lt_asymm hac, hac] at hyz
        · simp [charsLe, lt_asymm hab, hab] at hxy

theorem nameLe_total (a b : String) : nameLe a b = true ∨ nameLe b a = true :=
  charsLe_total a.data b.data

theorem nameLe_antisymm {a b : String} (h1 : nameLe a b = true)
    (h2 : nameLe b a = true) : a = b := by
  have h3 := charsLe_antisymm _ _ h1 h2
  exact congrArg String.mk h3

theorem nameLe_trans {a b c : String} (h1 : nameLe a b = true)
    (h2 : nameLe b c = true) : nameLe a c = true :=
  charsLe_trans _ _ _ h1 h2

/-- A list of options pairwise ordered by name. -/
abbrev sortedKeys (l : List (String × Bool)) : Prop :=
  List.Pairwise (fun p q => nameLe p.1 q.1 = true) l

theorem insertByName_perm (p : String × Bool) :
    ∀ l, (insertByName p l).Perm (p :: l) := by
  intro l
  induction l with
  | nil => exact List.Perm.refl _
  | cons q qs ih =>
    cases hb : nameLe p.1 q.1 with
    | true =>
      simp [insertByName, hb]
    | false =>
      have hg : insertByName p (q :: qs) = q :: insertByName p qs := by
        simp [insertByName, hb]
      rw [hg]
      exact (ih.cons q).trans (List.Perm.swap p q qs)

theorem sortByName_perm : ∀ (l : List (String × Bool)), (sortByName l).Perm l := by
  intro l
  induction l with
  | nil => exact List.Perm.refl _
  | cons p ps ih =>
    show (insertByName p (sortByName ps)).Perm (p :: ps)
    exact (insertByName_perm p _).trans (ih.cons p)

theorem insertByName_sorted (p : String × Bool) :
    ∀ l, sortedKeys l → sortedKeys (insertByName p l) := by
  intro l
  induction l with
  | nil =>
    intro _
    exact List.pairwise_singleton _ _
  | cons q qs ih =>
    intro h
    replace h := List.pairwise_cons.mp h
    cases hb : nameLe p.1 q.1 with
    | true =>
      have hg : insertByName p (q :: qs) = p :: q :: qs := by
        simp [insertByName, hb]
      rw [hg]
      apply List.pairwise_cons.mpr
      constructor
      · intro b hbmem
        rcases List.mem_cons.mp hbmem with rfl | hmem
        · exact hb
        · exact nameLe_trans hb (h.1 b hmem)
      · exact List.pairwise_cons.mpr h
    | false =>
      have hqp : nameLe q.1 p.1 = true := by
        rcases nameLe_total p.1 q.1 with h1 | h1
        · rw [hb] at h1
          exact absurd h1 (by simp)
        · exact h1
      have hg : insertByName p (q :: qs) = q :: insertByName p qs := by
        simp [insertByName, hb]
      rw [hg]
      apply List.pairwise_cons.mpr
      refine ⟨?_, ih h.2⟩
      intro b hbmem
      have hb2 : b ∈ p :: qs := (insertByName_perm p qs).mem_iff.mp hbmem
      rcases List.mem_cons.mp hb2 with rfl | hmem
      · exact hqp
      · exact h.1 b hmem

theorem sortByName_sorted : ∀ (l : List (String × Bool)), sortedKeys (sortByName l) := by
  intro l
  induction l with
  | nil => exact List.Pairwise.nil
  | cons p ps ih => exact insertByName_sorted p _ ih

/-- Two name-sorted option lists that are permutations of each other and
have distinct names are equal. -/
theorem sorted_keys_nodup_eq : ∀ (l1 l2 : List (String × Bool)), l1.Perm l2 →
    sortedKeys l1 → sortedKeys l2 → (l1.map Prod.fst).Nodup → l1 = l2 := by
  intro l1
  induction l1 with
  | nil =>
    intro l2 h _ _ _
    exact h.symm.eq_nil.symm
  | cons a t1 ih =>
    intro l2 h hs1 hs2 hnd
    cases l2 with
    | nil => exact absurd h.eq_nil (List.cons_ne_nil a t1)
    | cons b t2 =>
      replace hs1 := List.pairwise_cons.mp hs1
      replace hs2 := List.pairwise_cons.mp hs2
      simp only [List.map_cons, List.nodup_cons] at hnd
      have hab : a = b := by
        have ha2 : a ∈ b :: t2 := h.mem_iff.mp (List.mem_cons_self _ _)
        rcases List.mem_cons.mp ha2 with heq | hat2
        · exact heq
        · have hb1 : b ∈ a :: t1 := h.mem_iff.mpr (List.mem_cons_self _ _)
          rcases List.mem_cons.mp hb1 with heq | hbt1
          · exact heq.symm
          · have h1 : nameLe a.1 b.1 = true := hs1.1 b hbt1
            have h2 : nameLe b.1 a.1 = true := hs2.1 a hat2
            have hk : a.1 = b.1 := nameLe_antisymm h1 h2
            exact absurd (List.mem_map.mpr ⟨b, hbt1, hk.symm⟩) hnd.1
      subst hab
      rw [ih t2 h.cons_inv hs1.2 hs2.2 hnd.2]

/-- With distinct option names, the name-sorted iteration is insensitive to
the options' insertion order. -/
theorem sortByName_eq_of_perm (l1 l2 : List (String × Bool)) (h : l1.Perm l2)
    (hnd : (l1.map Prod.fst).Nodup) : sortByName l1 = sortByName l2 := by
  apply sorted_keys_nodup_eq
  · exact (sortByName_perm l1).trans (h.trans (sortByName_perm l2).symm)
  · exact sortByName_sorted l1
  · exact sortByName_sorted l2
  · exact ((sortByName_perm l1).map Prod.fst).nodup_iff.mpr hnd

/-! ## Lemmas for the serialized build record -/

theorem parseHexDigit_toHexDigit (d : Nat) (h : d < 16) :
    parseHexDigit (toHexDigit d) = some d := by
  by_cases h10 : d < 10
  · simp only [toHexDigit, if_pos h10, parseHexDigit]
    rw [if_pos (by omega)]
    simp only [Option.some.injEq]
    omega
  · simp only [toHexDigit, if_neg h10, parseHexDigit]
    rw [if_neg (by omega), if_pos (by omega)]
    simp only [Option.some.injEq]
    omega

theorem parseHex4_hex4 (n : Nat) (h : n < 65536) (rest : List Nat) :
    parseHex4 (hex4 n ++ rest) = some (n, rest) := by
  unfold hex4
  simp only [List.cons_append, List.nil_append]
  simp only [parseHex4]
  rw [parseHexDigit_toHexDigit _ (Nat.mod_lt _ (by omega)),
      parseHexDigit_toHexDigit _ (Nat.mod_lt _ (by omega)),
      parseHexDigit_toHexDigit _ (Nat.mod_lt _ (by omega)),
      parseHexDigit_toHexDigit _ (Nat.mod_lt _ (by omega))]
  have heq : n / 4096 % 16 * 4096 + n / 256 % 16 * 256 + n / 16 % 16 * 16 + n % 16 = n := by
    omega
  simp [heq]

theorem parseUEsc_single (n : Nat) (h16 : n < 65536)
    (hns : ¬ (55296 ≤ n ∧ n ≤ 56319)) (tail : List Nat) :
    parseUEsc (hex4 n ++ tail) = some (n, tail) := by
  rw [parseUEsc]
  rw [parseHex4_hex4 _ h16]
  simp [hns]

theorem parseUEsc_pair (hi lo : Nat) (hhi : 55296 ≤ hi ∧ hi ≤ 56319)
    (hlo : 56320 ≤ lo ∧ lo ≤ 57343) (tail : List Nat) :
    parseUEsc (hex4 hi ++ (92 :: 117 :: (hex4 lo ++ tail)))
      = some (65536 + (hi - 55296) * 1024 + (lo - 56320), tail) := by
  rw [parseUEsc]
  rw [parseHex4_hex4 _ (by omega)]
  simp only [if_pos hhi]
  rw [parseHex4_hex4 _ (by omega)]
  simp only [if_pos hlo]

theorem scanStr_quote (f : Nat) (tl : List Nat) :
    scanStrBody (f + 1) (34 :: tl) = some ([], tl) := by
  simp [scanStrBody]

theorem scanStr_raw (c : Nat) (h34 : ¬ c = 34) (h92 : ¬ c = 92) (h32 : ¬ c < 32)
    (f : Nat) (tl : List Nat) :
    scanStrBody (f + 1) (c :: tl)
      = (scanStrBody f tl).map (fun r => (c :: r.1, r.2)) := by
  simp [scanStrBody, h34, h92, h32]

theorem scanStr_simpleEsc (e d : Nat) (hne : ¬ e = 117)
    (hd : simpleUnescape e = some d) (f : Nat) (tl : List Nat) :
    scanStrBody (f + 1) (92 :: e :: tl)
      = (scanStrBody f tl).map (fun r => (d :: r.1, r.2)) := by
  simp [scanStrBody, hne, hd]

theorem scanStr_uEsc (f d : Nat) (cs2 tl : List Nat)
    (hu : parseUEsc cs2 = some (d, tl)) :
    scanStrBody (f + 1) (92 :: 117 :: cs2)
      = (scanStrBody f tl).map (fun r => (d :: r.1, r.2)) := by
  simp [scanStrBody, hu]

/-- One escaped character followed by arbitrary further input: the scanner
consumes exactly the escape of `c` (a Unicode scalar value) and decodes it
back to `c`. -/
theorem scanStr_escChar (c : Nat) (hcc : scalarCp c = true) (f : Nat)
    (tl : List Nat) :
    scanStrBody (f + 1) (escapeChar c ++ tl)
      = (scanStrBody f tl).map (fun r => (c :: r.1, r.2)) := by
  have hsc := hcc
  simp only [scalarCp, Bool.and_eq_true, decide_eq_true_eq, Bool.not_eq_eq_eq_not,
    Bool.not_true] at hsc
  have hlt : c < 1114112 := hsc.1
  have hsur : c < 55296 ∨ 57343 < c := by
    by_cases hlo : c < 55296
    · exact Or.inl hlo
    · right
      by_contra hhi
      push_neg at hhi
      have hcon : (decide (55296 ≤ c) && decide (c ≤ 57343)) = true := by
        simp only [Bool.and_eq_true, decide_eq_true_eq]
        omega
      rw [hsc.2] at hcon
      exact Bool.false_ne_true hcon
  by_cases h34 : c = 34
  · subst h34
    exact scanStr_simpleEsc 34 34 (by omega) rfl f tl
  by_cases h92 : c = 92
  · subst h92
    exact scanStr_simpleEsc 92 92 (by omega) rfl f tl
  by_cases h8 : c = 8
  · subst h8
    exact scanStr_simpleEsc 98 8 (by omega) rfl f tl
  by_cases h9 : c = 9
  · subst h9
    exact scanStr_simpleEsc 116 9 (by omega) rfl f tl
  by_cases h10 : c = 10
  · subst h10
    exact scanStr_simpleEsc 110 10 (by omega) rfl f tl
  by_cases h12 : c = 12
  · subst h12
    exact scanStr_simpleEsc 102 12 (by omega) rfl f tl
  by_cases h13 : c = 13
  · subst h13
    exact scanStr_simpleEsc 114 13 (by omega) rfl f tl
  by_cases hpr : 32 ≤ c ∧ c ≤ 126
  · have he : escapeChar c = [c] := by
      unfold escapeChar
      rw [if_neg h34, if_neg h92, if_neg h8, if_neg h9, if_neg h10, if_neg h12,
        if_neg h13, if_pos (by simp only [Bool.and_eq_true, decide_eq_true_eq]; exact hpr)]
    rw [he]
    exact scanStr_raw c h34 h92 (by omega) f tl
  by_cases hbmp : c < 65536
  · have he : escapeChar c = 92 :: 117 :: hex4 c := by
      unfold escapeChar
      rw [if_neg h34, if_neg h92, if_neg h8, if_neg h9, if_neg h10, if_neg h12,
        if_neg h13,
        if_neg (by simp only [Bool.and_eq_true, decide_eq_true_eq]; exact hpr),
        if_pos hbmp]
    rw [he]
    exact scanStr_uEsc f c (hex4 c ++ tl) tl
      (parseUEsc_single c (by omega) (by rcases hsur with h | h <;> omega) tl)
  · have he : escapeChar c =
        (92 :: 117 :: hex4 (55296 + (c - 65536) / 1024))
          ++ (92 :: 117 :: hex4 (56320 + (c - 65536) % 1024)) := by
      unfold escapeChar
      rw [if_neg h34, if_neg h92, if_neg h8, if_neg h9, if_neg h10, if_neg h12,
        if_neg h13,
        if_neg (by simp only [Bool.and_eq_true, decide_eq_true_eq]; exact hpr),
        if_neg hbmp]
    have hu := parseUEsc_pair (55296 + (c - 65536) / 1024)
      (56320 + (c - 65536) % 1024) (by omega) (by omega) tl
    rw [show 65536 + (55296 + (c - 65536) / 1024 - 55296) * 1024
        + (56320 + (c - 65536) % 1024 - 56320) = c from by omega] at hu
    rw [he, List.append_assoc]
    exact scanStr_uEsc f c _ tl hu

/-- The scanner is a left inverse of the escaper: scanning the escaped text
of a scalar string `s` followed by a closing quote yields exactly `s` and
the unconsumed remainder. -/
theorem scanStrBody_escape (s : List Nat) :
    ∀ (fuel : Nat), s.length < fuel → wfStr s = true →
      ∀ rest, scanStrBody fuel (escapeString s ++ 34 :: rest) = some (s, rest) := by
  induction s with
  | nil =>
    intro fuel hf _ rest
    obtain ⟨f, rfl⟩ : ∃ f, fuel = f + 1 := ⟨fuel - 1, by omega⟩
    exact scanStr_quote f rest
  | cons c cs ih =>
    intro fuel hf hwf rest
    obtain ⟨f, rfl⟩ : ∃ f, fuel = f + 1 := ⟨fuel - 1, by omega⟩
    have hfc : cs.length < f := by
      simp only [List.length_cons] at hf
      omega
    have hwf2 : scalarCp c = true ∧ wfStr cs = true := by
      simpa [wfStr] using hwf
    have hstep : escapeString (c :: cs) = escapeChar c ++ escapeString cs := rfl
    rw [hstep, List.append_assoc]
    rw [scanStr_escChar c hwf2.1 f (escapeString cs ++ 34 :: rest)]
    rw [ih f hfc hwf2.2 rest]
    rfl

theorem escapeString_length_ge (s : List Nat) : s.length ≤ (escapeString s).length := by
  induction s with
  | nil => simp [escapeString]
  | cons c cs ih =>
    have h1 : 1 ≤ (escapeChar c).length := by
      unfold escapeChar
      split_ifs <;> simp [hex4]
    simp only [escapeString, List.length_append, List.length_cons]
    omega

theorem parseStr0_serStr (s : List Nat) (hwf : wfStr s = true) (rest : List Nat) :
    parseStr0 (serStr s ++ rest) = some (s, rest) := by
  have h1 : serStr s ++ rest = 34 :: (escapeString s ++ 34 :: rest) := by
    simp [serStr, List.cons_append, List.append_assoc]
  rw [h1]
  show scanStrBody ((escapeString s ++ 34 :: rest).length + 1)
      (escapeString s ++ 34 :: rest) = some (s, rest)
  apply scanStrBody_escape s _ _ hwf rest
  have h2 := escapeString_length_ge s
  simp only [List.length_append, List.length_cons]
  omega

theorem serStr_length_ge (s : List Nat) : 2 ≤ (serStr s).length := by
  simp [serStr, List.length_append]

theorem serItems_length_ge (l : List (List Nat)) : l.length ≤ (serItems l).length := by
  induction l with
  | nil => simp [serItems]
  | cons s ls ih =>
    cases ls with
    | nil =>
      have := serStr_length_ge s
      simp only [serItems, List.length_cons, List.length_nil]
      omega
    | cons t ts =>
      have h1 := serStr_length_ge s
      simp only [serItems, List.length_append, List.length_cons] at ih ⊢
      omega

theorem parseItems_serItems (l : List (List Nat)) :
    l ≠ [] → (∀ s ∈ l, wfStr s = true) →
      ∀ (fuel : Nat), l.length ≤ fuel → ∀ rest,
        parseItems fuel (serItems l ++ 93 :: rest) = some (l, rest) := by
  induction l with
  | nil => intro h; contradiction
  | cons s ls ih =>
    intro _ hwf fuel hf rest
    obtain ⟨f, rfl⟩ : ∃ f, fuel = f + 1 :=
      ⟨fuel - 1, by simp only [List.length_cons] at hf; omega⟩
    have hws : wfStr s = true := hwf s (List.mem_cons_self _ _)
    cases ls with
    | nil =>
      show parseItems (f + 1) (serStr s ++ 93 :: rest) = some ([s], rest)
      simp only [parseItems]
      rw [parseStr0_serStr s hws (93 :: rest)]
    | cons t ts =>
      have hs : serItems (s :: t :: ts) ++ 93 :: rest
          = serStr s ++ ([44, 32] ++ (serItems (t :: ts) ++ 93 :: rest)) := by
        simp [serItems, List.append_assoc]
      rw [hs]
      simp only [parseItems]
      rw [parseStr0_serStr s hws _]
      have hrec := ih (List.cons_ne_nil _ _)
        (fun r hr => hwf r (List.mem_cons_of_mem _ hr)) f
        (by simp only [List.length_cons] at hf ⊢; omega) rest
      simp only [List.cons_append, List.nil_append]
      rw [hrec]

theorem parseArr_serList (l : List (List Nat)) (hwf : ∀ s ∈ l, wfStr s = true)
    (rest : List Nat) : parseArr (serList l ++ rest) = some (l, rest) := by
  cases l with
  | nil => rfl
  | cons s ls =>
    have h1 : serList (s :: ls) ++ rest = 91 :: (serItems (s :: ls) ++ 93 :: rest) := by
      simp [serList, List.cons_append, List.append_assoc]
    have hlen : (s :: ls).length ≤ (serItems (s :: ls) ++ 93 :: rest).length + 1 := by
      have h2 := serItems_length_ge (s :: ls)
      simp only [List.length_append, List.length_cons] at h2 ⊢
      omega
    have hitems := parseItems_serItems (s :: ls) (List.cons_ne_nil _ _) hwf
      ((serItems (s :: ls) ++ 93 :: rest).length + 1) hlen rest
    cases ls with
    | nil =>
      have h2 : serItems [s] ++ 93 :: rest
          = 34 :: ((escapeString s ++ [34]) ++ 93 :: rest) := by
        simp [serItems, serStr, List.cons_append, List.append_assoc]
      rw [h1]
      rw [h2] at hitems ⊢
      exact hitems
    | cons t ts =>
      have h2 : serItems (s :: t :: ts) ++ 93 :: rest
          = 34 :: ((escapeString s ++ [34]) ++ ([44, 32] ++ (serItems (t :: ts) ++ 93 :: rest))) := by
        simp [serItems, serStr, List.cons_append, List.append_assoc]
      rw [h1]
      rw [h2] at hitems ⊢
      exact hitems

theorem expectTok_append (t rest : List Nat) : expectTok t (t ++ rest) = some rest := by
  induction t with
  | nil => rfl
  | cons a ts ih => simp [expectTok, ih]

theorem roundtrip_general (args : List (List Nat)) (perl : List Nat)
    (hargs : ∀ s ∈ args, wfStr s = true) (hperl : wfStr perl = true) :
    parseBuildData (serBuildData ⟨args, perl⟩) = some ⟨args, perl⟩ := by
  unfold parseBuildData serBuildData
  simp [expectTok_append, parseArr_serList args hargs, parseStr0_serStr perl hperl]


/-! ## Claim theorems -/

/-- C1: For every (OS, architecture, compiler) triple whose query string
`OS-architecture-compiler` is glob-matched by at least one Target Table
pattern, `resolve` with no override returns the canonical target of the
first matching pattern in declaration order; in particular
OS="Linux", architecture="x86_64", compiler="clang" resolves to the
clang-specific "linux-x86_64-clang", not the later "Linux-x86_64-*"
catch-all's "linux-x86_64". -/
theorem c1_first_match :
    (∀ (os arch compiler : String) (isCygwin : Bool) (i : Nat)
        (h : i < (targetsTable isCygwin).length),
        fnmatchb (queryString os arch compiler)
            (((targetsTable isCygwin).get ⟨i, h⟩).1) = true →
        (∀ j (hj : j < i),
          fnmatchb (queryString os arch compiler)
            (((targetsTable isCygwin).get ⟨j, Nat.lt_trans hj h⟩).1) = false) →
        ancestorTarget none os arch compiler isCygwin
          = .ok (((targetsTable isCygwin).get ⟨i, h⟩).2))
    ∧ ancestorTarget none "Linux" "x86_64" "clang" false = .ok "linux-x86_64-clang"
    ∧ ancestorTarget none "Linux" "x86_64" "clang" false ≠ .ok "linux-x86_64" := by
  refine ⟨?_, by rfl, ?_⟩
  · intro os arch compiler cyg i h hp hprev
    unfold ancestorTarget
    rw [find?_eq_of_first _ _ i h hp hprev]
  · intro hc
    have h1 : ancestorTarget none "Linux" "x86_64" "clang" false
        = .ok "linux-x86_64-clang" := by rfl
    rw [h1] at hc
    simp at hc

/-- Witness for C1: the first-match statement applied at the concrete triple
Windows/x86/gcc (no cygwin subsystem), whose query matches row 49
("Windows-x86-gcc" ↦ "mingw") and no earlier row. -/
theorem c1_first_match_witness :
    ancestorTarget none "Windows" "x86" "gcc" false = .ok "mingw" :=
  c1_first_match.1 "Windows" "x86" "gcc" false 49 (by decide) (by decide) (by decide)

/-- C2: `resolve` with no override fails with a configuration error carrying
the full (OS, architecture, compiler) triple exactly when no Target Table
pattern glob-matches the query string — no silent fallback; concretely,
PlanX/vax/tcc fails while Windows/itanium/gcc succeeds via the declared
`Windows-*-gcc` catch-all (in both its non-cygwin and cygwin variants). -/
theorem c2_unsupported :
    (∀ (os arch compiler : String) (isCygwin : Bool),
        ancestorTarget none os arch compiler isCygwin = .error ⟨os, arch, compiler⟩
          ↔ ∀ p ∈ targetsTable isCygwin,
              fnmatchb (queryString os arch compiler) p.1 = false)
    ∧ ancestorTarget none "PlanX" "vax" "tcc" false = .error ⟨"PlanX", "vax", "tcc"⟩
    ∧ ancestorTarget none "Windows" "itanium" "gcc" false = .ok "mingw-common"
    ∧ ancestorTarget none "Windows" "itanium" "gcc" true = .ok "Cygwin-common" := by
  refine ⟨?_, by rfl, by rfl, by rfl⟩
  intro os arch compiler cyg
  unfold ancestorTarget
  cases hf : (targetsTable cyg).find?
      (fun p => fnmatchb (queryString os arch compiler) p.1) with
  | some q =>
    constructor
    · intro hcon
      exact absurd hcon (by simp)
    · intro hall
      have hm := List.mem_of_find?_eq_some hf
      have hq := List.find?_some hf
      rw [hall q hm] at hq
      exact absurd hq (by simp)
  | none =>
    constructor
    · intro _ p hp
      simpa using List.find?_eq_none.mp hf p hp
    · intro _
      rfl

/-- Witness for C2: the failure criterion applied at another concrete
unmatched triple. -/
theorem c2_unsupported_witness :
    ancestorTarget none "Hurd" "m68k" "tcc" true = .error ⟨"Hurd", "m68k", "tcc"⟩ :=
  (c2_unsupported.1 "Hurd" "m68k" "tcc" true).mpr (by decide)

/-- C5 (code bug evidence): the `_asm_target` dict is keyed by architecture
names, but the source reads it with `.get(str(self.settings.os), None)`, so
the lookup can never hit and the resolved ancestor chain never declares an
implementation identifier; in particular Android/armv8 yields no
"aarch64_asm" entry and the chain stays `[canonical_target_base]`. -/
theorem c5_asm_dead :
    asmTarget "Android" "armv8" = none
    ∧ ancestorChain "linux-generic64" "Android" "armv8" = ["linux-generic64"]
    ∧ asmTarget "Android" "x86_64" = none
    ∧ asmTarget "iOS" "armv8" = none
    ∧ asmTarget "watchOS" "armv7k" = none
    ∧ asmTarget "tvOS" "armv8" = none :=
  ⟨rfl, rfl, rfl, rfl, rfl, rfl⟩

/-- C6 counterexample: the normalization rewrites the modern compiler name
"msvc" into the *historical* alias "Visual Studio" (the form the Target
Table keys use) — not a historical alias into its modern name as claimed:
the query built for compiler "msvc" ends in "Visual Studio", an alias
distinct from the modern name. -/
theorem c6_counterexample :
    normalizeCompiler "msvc" = "Visual Studio"
    ∧ queryString "Windows" "x86" "msvc" = "Windows-x86-Visual Studio"
    ∧ "Visual Studio" ≠ "msvc" :=
  ⟨rfl, rfl, by decide⟩

/-- C6 amended: before Target Table matching, resolve normalizes the
compiler name by rewriting the modern name "msvc" to its historical alias
"Visual Studio" (the spelling used by the table keys), then builds the query
`OS-architecture-compiler` from the normalized name; every compiler other
than "msvc" is used unchanged, and "msvc" and "Visual Studio" produce the
same query. -/
theorem c6_amended :
    normalizeCompiler "msvc" = "Visual Studio"
    ∧ (∀ compiler, compiler ≠ "msvc" → normalizeCompiler compiler = compiler)
    ∧ (∀ os arch compiler, compiler ≠ "msvc" →
        queryString os arch compiler = os ++ "-" ++ (arch ++ "-" ++ compiler))
    ∧ (∀ os arch, queryString os arch "msvc" = queryString os arch "Visual Studio") := by
  refine ⟨rfl, ?_, ?_, fun os arch => rfl⟩
  · intro compiler hc
    simp [normalizeCompiler, hc]
  · intro os arch compiler hc
    simp [queryString, normalizeCompiler, hc]

/-- Witness for C6 at concrete compilers: "gcc" is unaliased and used
unchanged in the query. -/
theorem c6_amended_witness :
    normalizeCompiler "gcc" = "gcc"
    ∧ queryString "Linux" "x86" "gcc" = "Linux-x86-gcc" :=
  ⟨c6_amended.2.1 "gcc" (by decide), c6_amended.2.2.1 "Linux" "x86" "gcc" (by decide)⟩

/-- C3 counterexample: in the assembled list for the concrete scenario
(Linux/x86_64/clang, shared=false, fPIC=true, no_zlib=true,
no_threads=false) the claimed conjunction fails on two points: the generic
loop emits the zlib-related argument "no-zlib" (because the exclusion set
holds "zlib", not "no_zlib"), and "threads" is appended at the fixed
position 6 while "-fPIC" is only appended after position 9, so the claimed
relative order static → PIC → threads does not hold. -/
theorem c3_counterexample :
    ¬("no-shared" ∈ c3Args ∧ "-fPIC" ∈ c3Args ∧ "threads" ∈ c3Args
      ∧ (∀ a ∈ c3Args, zlibRelated a = false)
      ∧ c3Args.indexOf "no-shared" < c3Args.indexOf "-fPIC"
      ∧ c3Args.indexOf "-fPIC" < c3Args.indexOf "threads") := by
  decide

/-- C3 amended: for the concrete scenario the assembled list contains the
static-linkage flag "no-shared", the PIC flag "-fPIC" and the
threads-enabled flag "threads"; the zlib dependency-block arguments ("zlib",
"zlib-dynamic" and the "--with-zlib-…" paths) are all absent, but the
generic feature-disable loop does emit "no-zlib"; and the relative order of
the three flags is static-linkage, then threads, then PIC. -/
theorem c3_amended :
    "no-shared" ∈ c3Args ∧ "-fPIC" ∈ c3Args ∧ "threads" ∈ c3Args
    ∧ "zlib" ∉ c3Args ∧ "zlib-dynamic" ∉ c3Args
    ∧ (∀ a ∈ c3Args, ("--with-zlib".data.isPrefixOf a.data) = false)
    ∧ "no-zlib" ∈ c3Args
    ∧ c3Args.indexOf "no-shared" < c3Args.indexOf "threads"
    ∧ c3Args.indexOf "threads" < c3Args.indexOf "-fPIC" := by
  decide

/-- C4 counterexample: the loop's exclusion tuple contains the literal
"zlib" — which is not an option name — and not "no_zlib", so the enabled
`no_zlib` option does produce the generic-loop argument "no-zlib",
contradicting the claimed exclusion of the zlib toggle. -/
theorem c4_counterexample :
    loopArgs [("no_zlib", true)] = ["no-zlib"] ∧ "no_zlib" ∉ exclusionNames := by
  decide

/-- C4 amended: the generic loop emits, for every boolean option holding
true, exactly the hyphenated option name, excluding exactly the names in
the code's exclusion tuple ("shared", "fPIC", "openssldir",
"capieng_dialog", "enable_capieng", "zlib", "no_fips") — i.e. the literal
"zlib" stands where the claim expected "no_zlib", so `no_zlib` does emit a
loop argument while the other claimed exclusions emit none. -/
theorem c4_amended (opts : List (String × Bool))
    (hk : ∀ q ∈ opts, q.1 ∈ booleanOptionNames) :
    (∀ a ∈ loopArgs opts,
        ∃ q ∈ opts, q.2 = true ∧ q.1 ∉ exclusionNames ∧ a = hyphenate q.1)
    ∧ (∀ q ∈ opts, q.2 = true → q.1 ∉ exclusionNames →
        hyphenate q.1 ∈ loopArgs opts)
    ∧ (∀ n ∈ (["shared", "fPIC", "openssldir", "capieng_dialog",
          "enable_capieng", "no_fips"] : List String),
        hyphenate n ∉ loopArgs opts)
    ∧ (("no_zlib", true) ∈ opts → "no-zlib" ∈ loopArgs opts) := by
  have hsp := sortByName_perm opts
  have h1 : ∀ a ∈ loopArgs opts,
      ∃ q ∈ opts, q.2 = true ∧ q.1 ∉ exclusionNames ∧ a = hyphenate q.1 := by
    intro a ha
    obtain ⟨q, hq, hfa⟩ := List.mem_filterMap.mp ha
    have hq2 : q ∈ opts := hsp.mem_iff.mp hq
    by_cases hc : (q.2 = true ∧ q.1 ∉ exclusionNames)
    · rw [if_pos hc] at hfa
      injection hfa with hfa
      exact ⟨q, hq2, hc.1, hc.2, hfa.symm⟩
    · rw [if_neg hc] at hfa
      exact absurd hfa (by simp)
  refine ⟨h1, ?_, ?_, ?_⟩
  · intro q hq hv he
    exact List.mem_filterMap.mpr ⟨q, hsp.mem_iff.mpr hq, by rw [if_pos ⟨hv, he⟩]⟩
  · intro n hn hmem
    obtain ⟨q, hqmem, hqv, hqe, heq⟩ := h1 _ hmem
    have hqd := hk q hqmem
    have key : ∀ m ∈ booleanOptionNames, m ∉ exclusionNames →
        ∀ nn ∈ (["shared", "fPIC", "openssldir", "capieng_dialog",
            "enable_capieng", "no_fips"] : List String),
          hyphenate m ≠ hyphenate nn := by decide
    exact key q.1 hqd hqe n hn heq.symm
  · intro hz
    exact List.mem_filterMap.mpr ⟨("no_zlib", true), hsp.mem_iff.mpr hz, by decide⟩

/-- Witness for C4 at a concrete option list: `no_zlib` emits "no-zlib"
while the excluded `shared` emits nothing. -/
theorem c4_amended_witness :
    "no-zlib" ∈ loopArgs [("no_zlib", true), ("shared", true)]
    ∧ "shared" ∉ loopArgs [("no_zlib", true), ("shared", true)] := by
  have h := c4_amended [("no_zlib", true), ("shared", true)] (by decide)
  have h2 := h.2.2.1 "shared" (by decide)
  have hs : hyphenate "shared" = "shared" := by decide
  rw [hs] at h2
  exact ⟨h.2.2.2 (by decide), h2⟩

/-! ## Counting lemmas for the assembled argument list -/

/-- The part of the argument list assembled before the generic loop holds a
position-independent-code argument exactly when the OS is not Windows, and
then exactly one. -/
theorem countP_base_pic (c : Config) (perl : String) :
    (baseArgs c perl).countP picArgPred = if c.os = "Windows" then 0 else 1 := by
  have e1 : ∀ b : String, picArgPred ("\"" ++ b) = false := fun b =>
    picArgPred_append _ b 1 1 (by decide) (by decide) (by decide) (by decide)
  have e2 : ∀ b : String, picArgPred ("--prefix=\"" ++ b) = false := fun b =>
    picArgPred_append _ b 2 1 (by decide) (by decide) (by decide) (by decide)
  have e3 : ∀ b : String, picArgPred ("--openssldir=\"" ++ b) = false := fun b =>
    picArgPred_append _ b 2 1 (by decide) (by decide) (by decide) (by decide)
  have e4 : ∀ b : String, picArgPred ("PERL=" ++ b) = false := fun b =>
    picArgPred_append _ b 1 1 (by decide) (by decide) (by decide) (by decide)
  have e5 : ∀ b : String, picArgPred (" -D__ANDROID_API__=" ++ b) = false := fun b =>
    picArgPred_append _ b 1 1 (by decide) (by decide) (by decide) (by decide)
  have e6 : ∀ b : String, picArgPred ("--with-zlib-include=\"" ++ b) = false := fun b =>
    picArgPred_append _ b 2 1 (by decide) (by decide) (by decide) (by decide)
  have e7 : ∀ b : String, picArgPred ("--with-zlib-lib=\"" ++ b) = false := fun b =>
    picArgPred_append _ b 2 1 (by decide) (by decide) (by decide) (by decide)
  unfold baseArgs zlibArgs
  simp [List.countP_append, List.countP_cons, apply_ite picArgPred,
    apply_ite (List.countP picArgPred), e1, e2, e3, e4, e5, e6, e7,
    show picArgPred "shared" = false from by decide,
    show picArgPred "no-shared" = false from by decide,
    show picArgPred "--libdir=lib" = false from by decide,
    show picArgPred "no-unit-test" = false from by decide,
    show picArgPred "no-threads" = false from by decide,
    show picArgPred "threads" = false from by decide,
    show picArgPred "no-tests" = false from by decide,
    show picArgPred "--debug" = false from by decide,
    show picArgPred "--release" = false from by decide,
    show picArgPred "-D__STDC_NO_ATOMICS__=1" = false from by decide,
    show picArgPred "enable-capieng" = false from by decide,
    show picArgPred "-DOPENSSL_CAPIENG_DIALOG=1" = false from by decide,
    show picArgPred "no-fips" = false from by decide,
    show picArgPred "enable-fips" = false from by decide,
    show picArgPred "no-asm -lsocket -latomic" = false from by decide,
    show picArgPred "zlib-dynamic" = false from by decide,
    show picArgPred "zlib" = false from by decide,
    show picArgPred "-fPIC" = true from by decide,
    show picArgPred "no-pic" = true from by decide]

/-- The part of the argument list assembled before the generic loop holds
"no-threads" exactly when the `no_threads` option is set, and then exactly
once (at the fixed threading position). -/
theorem count_base_threads (c : Config) (perl : String) :
    (baseArgs c perl).count "no-threads"
      = if getSafe c.opts "no_threads" false then 1 else 0 := by
  have f1 : ∀ b : String, (("\"" ++ b) == "no-threads") = false := fun b =>
    beq_lead_false 1 _ _ _ (by decide) (by decide)
  have f2 : ∀ b : String, (("--prefix=\"" ++ b) == "no-threads") = false := fun b =>
    beq_lead_false 1 _ _ _ (by decide) (by decide)
  have f3 : ∀ b : String, (("--openssldir=\"" ++ b) == "no-threads") = false := fun b =>
    beq_lead_false 1 _ _ _ (by decide) (by decide)
  have f4 : ∀ b : String, (("PERL=" ++ b) == "no-threads") = false := fun b =>
    beq_lead_false 1 _ _ _ (by decide) (by decide)
  have f5 : ∀ b : String, ((" -D__ANDROID_API__=" ++ b) == "no-threads") = false := fun b =>
    beq_lead_false 1 _ _ _ (by decide) (by decide)
  have f6 : ∀ b : String, (("--with-zlib-include=\"" ++ b) == "no-threads") = false := fun b =>
    beq_lead_false 1 _ _ _ (by decide) (by decide)
  have f7 : ∀ b : String, (("--with-zlib-lib=\"" ++ b) == "no-threads") = false := fun b =>
    beq_lead_false 1 _ _ _ (by decide) (by decide)
  unfold baseArgs zlibArgs
  simp [List.count_append, List.count_cons, apply_ite (· == ("no-threads" : String)),
    apply_ite (List.count ("no-threads" : String)), List.count_nil,
    f1, f2, f3, f4, f5, f6, f7]

/-- The loop's emission over a plain option sequence contributes no
argument satisfying `p` when `p` rejects every hyphenated declared option
name. -/
theorem countP_emit_zero (p : String → Bool) :
    ∀ (l : List (String × Bool)), (∀ q ∈ l, q.1 ∈ booleanOptionNames) →
      (∀ n ∈ booleanOptionNames, p (hyphenate n) = false) →
      (l.filterMap fun q =>
          if q.2 ∧ q.1 ∉ exclusionNames then some (hyphenate q.1) else none).countP p
        = 0 := by
  intro l
  induction l with
  | nil => intro _ _; rfl
  | cons q qs ih =>
    intro hk hp
    have hq1 : q.1 ∈ booleanOptionNames := hk q (List.mem_cons_self _ _)
    have hrest : ∀ r ∈ qs, r.1 ∈ booleanOptionNames :=
      fun r hr => hk r (List.mem_cons_of_mem _ hr)
    rw [List.filterMap_cons]
    by_cases hc : (q.2 = true ∧ q.1 ∉ exclusionNames)
    · rw [if_pos hc, List.countP_cons, hp q.1 hq1, ih hrest hp]
      decide
    · rw [if_neg hc]
      exact ih hrest hp

/-- The generic loop contributes no argument satisfying `p` when `p`
rejects every hyphenated declared option name. -/
theorem countP_loop_zero (p : String → Bool) (opts : List (String × Bool))
    (hk : ∀ q ∈ opts, q.1 ∈ booleanOptionNames)
    (hp : ∀ n ∈ booleanOptionNames, p (hyphenate n) = false) :
    (loopArgs opts).countP p = 0 := by
  unfold loopArgs
  exact countP_emit_zero p (sortByName opts)
    (fun q hq => hk q ((sortByName_perm opts).mem_iff.mp hq)) hp

/-- No "no-threads" is emitted over a plain option sequence holding no
option named `no_threads`. -/
theorem count_emit_nothreads_zero :
    ∀ (l : List (String × Bool)), (∀ q ∈ l, q.1 ∈ booleanOptionNames) →
      (∀ q ∈ l, q.1 ≠ "no_threads") →
      (l.filterMap fun q =>
          if q.2 ∧ q.1 ∉ exclusionNames then some (hyphenate q.1) else none).count
        "no-threads" = 0 := by
  have key : ∀ m ∈ booleanOptionNames, m ≠ "no_threads" →
      (hyphenate m == "no-threads") = false := by decide
  intro l
  induction l with
  | nil => intro _ _; rfl
  | cons q qs ih =>
    intro hk hno
    have hq1 : q.1 ∈ booleanOptionNames := hk q (List.mem_cons_self _ _)
    have hrest : ∀ r ∈ qs, r.1 ∈ booleanOptionNames :=
      fun r hr => hk r (List.mem_cons_of_mem _ hr)
    have hnorest : ∀ r ∈ qs, r.1 ≠ "no_threads" :=
      fun r hr => hno r (List.mem_cons_of_mem _ hr)
    rw [List.filterMap_cons]
    by_cases hc : (q.2 = true ∧ q.1 ∉ exclusionNames)
    · rw [if_pos hc, List.count_cons]
      rw [key q.1 hq1 (hno q (List.mem_cons_self _ _))]
      rw [ih hrest hnorest]
      decide
    · rw [if_neg hc]
      exact ih hrest hnorest

/-- Over a plain option sequence with distinct declared names holding
`no_threads = True`, the loop's emission holds "no-threads" exactly once. -/
theorem count_emit_nothreads_one :
    ∀ (l : List (String × Bool)), (∀ q ∈ l, q.1 ∈ booleanOptionNames) →
      (l.map Prod.fst).Nodup → l.lookup "no_threads" = some true →
      (l.filterMap fun q =>
          if q.2 ∧ q.1 ∉ exclusionNames then some (hyphenate q.1) else none).count
        "no-threads" = 1 := by
  intro l
  induction l with
  | nil =>
    intro _ _ ht
    simp [List.lookup] at ht
  | cons q qs ih =>
    intro hk hnd ht
    obtain ⟨k, v⟩ := q
    simp only [List.map_cons, List.nodup_cons] at hnd
    have hrest : ∀ r ∈ qs, r.1 ∈ booleanOptionNames :=
      fun r hr => hk r (List.mem_cons_of_mem _ hr)
    by_cases hk2 : "no_threads" = k
    · subst hk2
      have hv : v = true := by
        simp only [List.lookup, beq_self_eq_true] at ht
        exact Option.some.inj ht
      subst hv
      rw [List.filterMap_cons, if_pos (by decide), List.count_cons]
      have hz := count_emit_nothreads_zero qs hrest
        (fun r hr hcon => hnd.1 (hcon ▸ List.mem_map.mpr ⟨r, hr, rfl⟩))
      rw [hz]
      decide
    · have hb : ("no_threads" == k) = false := beq_eq_false_iff_ne.mpr hk2
      have ht2 : qs.lookup "no_threads" = some true := by
        simpa only [List.lookup, hb] using ht
      have hone := ih hrest hnd.2 ht2
      have key : ∀ m ∈ booleanOptionNames, m ≠ "no_threads" →
          (hyphenate m == "no-threads") = false := by decide
      rw [List.filterMap_cons]
      by_cases hc : (((k, v) : String × Bool).2 = true ∧
          ((k, v) : String × Bool).1 ∉ exclusionNames)
      · rw [if_pos hc, List.count_cons]
        rw [key k (hk _ (List.mem_cons_self _ _)) (fun hcon => hk2 hcon.symm)]
        rw [hone]
        decide
      · rw [if_neg hc]
        exact hone

/-- With distinct declared option names and `no_threads = True`, the
generic loop emits "no-threads" exactly once. -/
theorem count_loop_nothreads_one (opts : List (String × Bool))
    (hk : ∀ q ∈ opts, q.1 ∈ booleanOptionNames)
    (hnd : (opts.map Prod.fst).Nodup)
    (ht : opts.lookup "no_threads" = some true) :
    (loopArgs opts).count "no-threads" = 1 := by
  unfold loopArgs
  have hperm := sortByName_perm opts
  have hnd2 : ((sortByName opts).map Prod.fst).Nodup :=
    ((hperm.map Prod.fst).nodup_iff).mpr hnd
  have ht2 : (sortByName opts).lookup "no_threads" = some true := by
    rw [lookup_perm hperm hnd2 "no_threads"]
    exact ht
  exact count_emit_nothreads_one (sortByName opts)
    (fun q hq => hk q (hperm.mem_iff.mp hq)) hnd2 ht2

/-- C9: for every option set over the declared option names, the assembled
list contains no "-fPIC"/"no-pic" argument when the OS is exactly Windows,
contains exactly one of the two on every other OS, and in particular when
the `fPIC` option is absent (as after `configure` deleted it for
shared=True) the positive "-fPIC" is still emitted because the `get_safe`
lookup defaults to True. -/
theorem c9_pic (c : Config) (perl : String)
    (hk : ∀ q ∈ c.opts, q.1 ∈ booleanOptionNames) :
    ((getConfigureArgs c perl).countP picArgPred
      = if c.os = "Windows" then 0 else 1)
    ∧ (c.os ≠ "Windows" → c.opts.lookup "fPIC" = none →
        "-fPIC" ∈ getConfigureArgs c perl) := by
  have hbase := countP_base_pic c perl
  have hloop := countP_loop_zero picArgPred c.opts hk (by decide)
  constructor
  · unfold getConfigureArgs
    rw [List.countP_append, hbase, hloop]
    simp
  · intro hw hfp
    have hgs : getSafe c.opts "fPIC" true = true := by rw [getSafe, hfp]; rfl
    unfold getConfigureArgs baseArgs
    simp [hgs, hw, List.mem_append]

/-- Witness for C9 at a concrete Windows and a concrete Linux option set. -/
theorem c9_pic_witness :
    ((getConfigureArgs { sampleCfg with opts := [("no_md2", true)] } "perl").countP
        picArgPred = 1)
    ∧ "-fPIC" ∈ getConfigureArgs { sampleCfg with opts := [("no_md2", true)] } "perl" := by
  have h := c9_pic { sampleCfg with opts := [("no_md2", true)] } "perl" (by decide)
  exact ⟨h.1, h.2 (by decide) (by decide)⟩

/-- C10: for every option set over the declared names with distinct keys in
which `no_threads` is True, the assembled argument list contains
"no-threads" exactly twice: once from the fixed threading position of the
base sequence, once from the generic feature-disable loop (whose exclusion
tuple does not hold "no_threads"). -/
theorem c10_threads (c : Config) (perl : String)
    (hk : ∀ q ∈ c.opts, q.1 ∈ booleanOptionNames)
    (hnd : (c.opts.map Prod.fst).Nodup)
    (ht : c.opts.lookup "no_threads" = some true) :
    (getConfigureArgs c perl).count "no-threads" = 2
    ∧ (baseArgs c perl).count "no-threads" = 1
    ∧ (loopArgs c.opts).count "no-threads" = 1 := by
  have hgs : getSafe c.opts "no_threads" false = true := by rw [getSafe, ht]; rfl
  have hbase : (baseArgs c perl).count "no-threads" = 1 := by
    rw [count_base_threads c perl, hgs]
    rfl
  have hloop := count_loop_nothreads_one c.opts hk hnd ht
  refine ⟨?_, hbase, hloop⟩
  unfold getConfigureArgs
  rw [List.count_append, hbase, hloop]

/-- C8: assemble is deterministic (a pure function of its inputs) and
independent of the Option Set's insertion order: for any two option sets
holding exactly the same (name, value) pairs — with distinct names, as in a
Python options dict — in different insertion orders, and otherwise
identical inputs, the assembled argument lists are identical, element for
element and in order.  The generic loop iterates `self.options.items()`,
which yields the options sorted by name, so the insertion order never
reaches the output. -/
theorem c8_insertion_order_independent (c : Config) (perl : String)
    (o1 o2 : List (String × Bool)) (hperm : o1.Perm o2)
    (hnd : (o1.map Prod.fst).Nodup) :
    getConfigureArgs { c with opts := o1 } perl
      = getConfigureArgs { c with opts := o2 } perl := by
  have hg : ∀ n d, getSafe o1 n d = getSafe o2 n d := fun n d => by
    rw [getSafe, getSafe, lookup_perm hperm hnd n]
  have hg2 : ∀ n d, getSafe ({ c with opts := o1 } : Config).opts n d
      = getSafe ({ c with opts := o2 } : Config).opts n d := hg
  have h1 : baseArgs { c with opts := o1 } perl
      = baseArgs { c with opts := o2 } perl := by
    unfold baseArgs
    simp only [hg2]
    rfl
  have h2 : loopArgs o1 = loopArgs o2 := by
    unfold loopArgs
    rw [sortByName_eq_of_perm o1 o2 hperm hnd]
  unfold getConfigureArgs
  rw [h1]
  exact congrArg (fun l => baseArgs { c with opts := o2 } perl ++ l) h2

/-- Witness for C8: the order-independence statement applied at the two
concrete permuted two-option lists, whose assembled lists coincide. -/
theorem c8_insertion_order_independent_witness :
    getConfigureArgs { sampleCfg with opts := c8OptsA } "perl"
      = getConfigureArgs { sampleCfg with opts := c8OptsB } "perl" :=
  c8_insertion_order_independent sampleCfg "perl" c8OptsA c8OptsB
    (by decide) (by decide)

/-- Witness for C10 at a concrete option set with `no_threads = True`. -/
theorem c10_threads_witness :
    (getConfigureArgs { sampleCfg with opts := [("no_threads", true), ("no_md2", true)] }
        "perl").count "no-threads" = 2 :=
  (c10_threads { sampleCfg with opts := [("no_threads", true), ("no_md2", true)] }
    "perl" (by decide) (by decide) (by decide)).1

/-- C7: for every build record {configure_args, perl_exe} whose strings are
Unicode scalar sequences, serializing it exactly as `json.dumps` does in
`generate` and deserializing the bytes exactly as `json.loads` does in
`_configure` reproduces the same ordered `configure_args` list and the same
tool path, with no field loss, reordering, or coercion. -/
theorem c7_roundtrip (d : BuildData) (hwf : wfBuildData d = true) :
    parseBuildData (serBuildData d) = some d := by
  obtain ⟨args, perl⟩ := d
  have hwf2 : (args.all wfStr) = true ∧ wfStr perl = true := by
    simpa [wfBuildData] using hwf
  exact roundtrip_general args perl
    (fun s hs => List.all_eq_true.mp hwf2.1 s hs) hwf2.2

/-- Witness for C7 at a concrete record holding a quote, a backslash, a
control character, a non-ASCII character and an astral character. -/
theorem c7_roundtrip_witness :
    parseBuildData (serBuildData c7Sample) = some c7Sample :=
  c7_roundtrip c7Sample (by decide)

end OpenSSL
